import Mathlib

/-!
Shallow embedding of the gitx stacked-diff core (Rust) in Lean 4, together
with theorems settling the specification claims about it.

Modelling conventions:
- Rust `String`/`&str` values are modelled as `String` or `List Char`
  (character lists) as convenient; all byte-level operations in the source
  act on ASCII data at those points, so char = byte there.
- git object ids (`Oid`) are modelled as strings (`CommitId`).
- `chrono::DateTime<Utc>` timestamps are modelled as opaque strings
  (`Timestamp`); `Utc::now()` becomes an explicit `now` parameter.
- Fallible Rust functions returning `Result` become `Except String`.
- The git notes side channel (`refs/notes/gitx-metadata`) is an association
  list from commit id to the stored note message; a note message is
  `Option Json` (`none` models a note whose message is not valid UTF-8,
  which `note.message()` reports as `None`).
- serde_json serialization is modelled by an explicit `Json` value type with
  encoders/decoders that mirror the derived serde implementations for the
  structs in `metadata.rs` (field order, serde default-field semantics,
  unit enum variants encoded as plain strings).
-/

namespace Gitx

/- ## Branch naming (`src/branch_naming.rs`) -/

/-- Rust char pattern in `sanitize_commit_title`: lowercase letters or
digits are kept, everything else becomes a hyphen. -/
def isKeptChar (c : Char) : Bool :=
  ('a' ≤ c && c ≤ 'z') || ('0' ≤ c && c ≤ '9')

/-- One step of the character map in `sanitize_commit_title`. -/
def mapSanitize (c : Char) : Char :=
  if isKeptChar c then c else '-'

/-- Model of Rust `str::lines().next().unwrap_or("")`: the text up to the
first newline, with a trailing carriage return stripped when the line was
terminated by a newline. -/
def firstLine (s : List Char) : List Char :=
  let l := s.takeWhile (fun c => c != '\n')
  if l.length < s.length && l.getLast? == some '\x0d' then l.dropLast else l

/-- Model of Rust `str::trim` (whitespace from both ends).  Rust trims by
the Unicode White_Space property; this model uses `Char.isWhitespace`,
which agrees on ASCII. -/
def trimWhitespace (l : List Char) : List Char :=
  ((l.dropWhile Char.isWhitespace).reverse.dropWhile Char.isWhitespace).reverse

/-- One round of `str::replace` of two hyphens by one: replace
non-overlapping occurrences scanning left to right. -/
def replaceDoubleHyphen : List Char → List Char
  | [] => []
  | [c] => [c]
  | c :: d :: rest =>
    if c = '-' ∧ d = '-' then '-' :: replaceDoubleHyphen rest
    else c :: replaceDoubleHyphen (d :: rest)

/-- Model of `str::contains` applied to a two-hyphen pattern. -/
def hasDoubleHyphen : List Char → Bool
  | [] => false
  | [_] => false
  | c :: d :: rest => (c = '-' && d = '-') || hasDoubleHyphen (d :: rest)

theorem replaceDoubleHyphen_length_le (l : List Char) :
    (replaceDoubleHyphen l).length ≤ l.length := by
  induction l using replaceDoubleHyphen.induct with
  | case1 => simp [replaceDoubleHyphen]
  | case2 c => simp [replaceDoubleHyphen]
  | case3 c d rest h ih =>
    simp only [replaceDoubleHyphen, if_pos h, List.length_cons]
    omega
  | case4 c d rest h ih =>
    simp only [replaceDoubleHyphen, if_neg h, List.length_cons]
    simp only [List.length_cons] at ih
    omega

theorem replaceDoubleHyphen_length_lt (l : List Char)
    (h : hasDoubleHyphen l = true) :
    (replaceDoubleHyphen l).length < l.length := by
  induction l using replaceDoubleHyphen.induct with
  | case1 => simp [hasDoubleHyphen] at h
  | case2 c => simp [hasDoubleHyphen] at h
  | case3 c d rest hcd ih =>
    have := replaceDoubleHyphen_length_le rest
    simp only [replaceDoubleHyphen, if_pos hcd, List.length_cons]
    omega
  | case4 c d rest hcd ih =>
    simp only [hasDoubleHyphen, Bool.or_eq_true, Bool.and_eq_true,
      decide_eq_true_eq] at h
    have hrest : hasDoubleHyphen (d :: rest) = true := by
      rcases h with h | h
      · exact absurd ⟨h.1, h.2⟩ hcd
      · exact h
    simp only [replaceDoubleHyphen, if_neg hcd, List.length_cons]
    have := ih hrest
    simp only [List.length_cons] at this
    omega

theorem mem_replaceDoubleHyphen {a : Char} : ∀ {l : List Char},
    a ∈ replaceDoubleHyphen l → a ∈ l := by
  intro l
  induction l using replaceDoubleHyphen.induct with
  | case1 => simp [replaceDoubleHyphen]
  | case2 c => simp [replaceDoubleHyphen]
  | case3 c d rest h ih =>
    simp only [replaceDoubleHyphen, if_pos h, List.mem_cons]
    rintro (rfl | hm)
    · exact Or.inl h.1.symm
    · exact Or.inr (Or.inr (ih hm))
  | case4 c d rest h ih =>
    simp only [replaceDoubleHyphen, if_neg h, List.mem_cons] at *
    rintro (rfl | hm)
    · exact Or.inl rfl
    · exact Or.inr (ih hm)

/-- Fuel-driven model of the Rust loop: while the string contains two
adjacent hyphens, replace pairs by single hyphens.  Each round strictly
shrinks the string (`replaceDoubleHyphen_length_lt`), so running it
`l.length` times always reaches the loop's fixed point. -/
def collapseHyphensGo : Nat → List Char → List Char
  | 0, l => l
  | fuel + 1, l =>
    if hasDoubleHyphen l then collapseHyphensGo fuel (replaceDoubleHyphen l)
    else l

def collapseHyphens (l : List Char) : List Char :=
  collapseHyphensGo l.length l

theorem collapseHyphensGo_noDouble : ∀ (fuel : Nat) (l : List Char),
    l.length ≤ fuel → hasDoubleHyphen (collapseHyphensGo fuel l) = false := by
  intro fuel
  induction fuel with
  | zero =>
    intro l hl
    have : l = [] := List.length_eq_zero.1 (Nat.le_zero.1 hl)
    subst this
    simp [collapseHyphensGo, hasDoubleHyphen]
  | succ n ih =>
    intro l hl
    by_cases h : hasDoubleHyphen l
    · rw [collapseHyphensGo, if_pos h]
      have hlt := replaceDoubleHyphen_length_lt l h
      exact ih _ (by omega)
    · rw [collapseHyphensGo, if_neg h]
      simpa using h

theorem hasDoubleHyphen_collapseHyphens (l : List Char) :
    hasDoubleHyphen (collapseHyphens l) = false :=
  collapseHyphensGo_noDouble l.length l le_rfl

theorem mem_collapseHyphensGo {a : Char} : ∀ (fuel : Nat) {l : List Char},
    a ∈ collapseHyphensGo fuel l → a ∈ l := by
  intro fuel
  induction fuel with
  | zero => intro l h; exact h
  | succ n ih =>
    intro l h
    by_cases hd : hasDoubleHyphen l
    · rw [collapseHyphensGo, if_pos hd] at h
      exact mem_replaceDoubleHyphen (ih h)
    · rwa [collapseHyphensGo, if_neg hd] at h

theorem mem_collapseHyphens {a : Char} {l : List Char}
    (h : a ∈ collapseHyphens l) : a ∈ l :=
  mem_collapseHyphensGo l.length h

/-- `hasDoubleHyphen` holds exactly when two adjacent hyphens occur,
i.e. when the two-hyphen word is an infix. -/
theorem hasDoubleHyphen_iff_pair : ∀ l : List Char,
    hasDoubleHyphen l = true ↔ ['-', '-'] <:+: l := by
  intro l
  induction l with
  | nil =>
    simp [hasDoubleHyphen]
  | cons c rest ih =>
    cases rest with
    | nil =>
      constructor
      · intro h; simp [hasDoubleHyphen] at h
      · intro h
        have := h.sublist.length_le
        simp at this
    | cons d rest2 =>
      rw [List.infix_cons_iff]
      constructor
      · intro h
        simp only [hasDoubleHyphen, Bool.or_eq_true, Bool.and_eq_true,
          decide_eq_true_eq] at h
        rcases h with ⟨rfl, rfl⟩ | h
        · exact Or.inl ⟨rest2, rfl⟩
        · exact Or.inr ((ih).1 h)
      · intro h
        simp only [hasDoubleHyphen, Bool.or_eq_true, Bool.and_eq_true,
          decide_eq_true_eq]
        rcases h with ⟨t, ht⟩ | h
        · injection ht with h1 h2
          injection h2 with h3 h4
          exact Or.inl ⟨h1.symm, h3.symm⟩
        · exact Or.inr ((ih).2 h)

theorem hasDoubleHyphen_mono {l₁ l₂ : List Char} (h : l₁ <:+: l₂)
    (hd : hasDoubleHyphen l₁ = true) : hasDoubleHyphen l₂ = true := by
  rw [hasDoubleHyphen_iff_pair] at hd ⊢
  exact hd.trans h

/-- Model of Rust `str::trim_matches` with a hyphen pattern: strip hyphens
from both ends. -/
def trimHyphens (l : List Char) : List Char :=
  ((l.dropWhile (fun c => c == '-')).reverse.dropWhile (fun c => c == '-')).reverse

theorem dropWhile_suffix' {p : Char → Bool} (l : List Char) :
    l.dropWhile p <:+ l := by
  induction l with
  | nil => simp
  | cons c rest ih =>
    by_cases h : p c
    · rw [List.dropWhile_cons_of_pos h]
      exact ih.trans (List.suffix_cons c rest)
    · rw [List.dropWhile_cons_of_neg h]

theorem head?_dropWhile_false {p : Char → Bool} :
    ∀ {l : List Char} {a : Char}, (l.dropWhile p).head? = some a → p a = false := by
  intro l
  induction l with
  | nil => simp
  | cons c rest ih =>
    intro a h
    by_cases hc : p c
    · rw [List.dropWhile_cons_of_pos hc] at h
      exact ih h
    · rw [List.dropWhile_cons_of_neg hc] at h
      simp at h
      subst h
      simpa using hc

theorem trimHyphens_within (l : List Char) : trimHyphens l <:+: l := by
  unfold trimHyphens
  set d := l.dropWhile (fun c => c == '-') with hd
  set e := d.reverse.dropWhile (fun c => c == '-') with he
  have h1 : d <:+ l := dropWhile_suffix' l
  have h2 : e <:+ d.reverse := dropWhile_suffix' d.reverse
  have h3 : e.reverse <+: d := by
    have h4 : e.reverse <+: d.reverse.reverse := (List.reverse_prefix).2 h2
    rwa [List.reverse_reverse] at h4
  exact h3.isInfix.trans h1.isInfix

theorem trimHyphens_length_le (l : List Char) :
    (trimHyphens l).length ≤ l.length :=
  (trimHyphens_within l).sublist.length_le

theorem trimHyphens_head? {l : List Char} {a : Char}
    (h : (trimHyphens l).head? = some a) : a ≠ '-' := by
  unfold trimHyphens at h
  rw [List.head?_reverse] at h
  set d := l.dropWhile (fun c => c == '-') with hd
  set e := d.reverse.dropWhile (fun c => c == '-') with he
  have hsuf : e <:+ d.reverse := dropWhile_suffix' d.reverse
  obtain ⟨t, ht⟩ := hsuf
  have hne : e ≠ [] := by
    intro hnil
    rw [hnil] at h
    simp at h
  have hda : d.head? = some a := by
    have h5 : d.reverse.getLast? = some a := by
      rw [← ht, List.getLast?_append_of_ne_nil _ hne]
      exact h
    rwa [List.getLast?_reverse] at h5
  have := head?_dropWhile_false (p := fun c => c == '-') hda
  simpa using this

theorem trimHyphens_getLast? {l : List Char} {a : Char}
    (h : (trimHyphens l).getLast? = some a) : a ≠ '-' := by
  unfold trimHyphens at h
  rw [List.getLast?_reverse] at h
  have := head?_dropWhile_false (p := fun c => c == '-') h
  simpa using this

/-- Model of `sanitize_commit_title` (`src/branch_naming.rs`).  Rust
lowercases the whole string (Unicode-aware); this model lowercases per
character with `Char.toLower`, which agrees on ASCII — any non-ASCII
character is mapped to a hyphen right after in both.  Rust truncates at 50
bytes; after the character map every character is ASCII, so 50 bytes equal
50 characters. -/
def sanitize_commit_title (commit_message : List Char) : List Char :=
  let title := trimWhitespace (firstLine commit_message)
  let mapped := (title.map Char.toLower).map mapSanitize
  let collapsed := collapseHyphens mapped
  let trimmed := trimHyphens collapsed
  let truncated :=
    if 50 < trimmed.length then trimHyphens (trimmed.take 50) else trimmed
  if truncated.isEmpty then "untitled".data else truncated

/-- Model of `generate_branch_name` (`src/branch_naming.rs`). -/
def generate_branch_name (username commit_message : List Char) : List Char :=
  "gitx/".data ++ username ++ "/".data ++ sanitize_commit_title commit_message

/-- A character allowed in a sanitized title: lowercase letter, digit
or hyphen. -/
def isTitleChar (c : Char) : Bool := isKeptChar c || c == '-'

/-- The well-formedness predicate for the sanitized title segment asserted
by the spec: 1 to 50 characters, all lowercase alphanumeric or hyphen, no
leading, trailing or consecutive hyphens. -/
def goodTitle (t : List Char) : Bool :=
  decide (1 ≤ t.length) && decide (t.length ≤ 50) && t.all isTitleChar
    && !(t.head? == some '-') && !(t.getLast? == some '-')
    && !(hasDoubleHyphen t)

theorem isTitleChar_mapSanitize (c : Char) :
    isTitleChar (mapSanitize c) = true := by
  by_cases h : isKeptChar c = true
  · simp [mapSanitize, isTitleChar, h]
  · simp [mapSanitize, isTitleChar, h]

/-- Central sanitizer property: the title produced by
`sanitize_commit_title` is always well formed. -/
theorem sanitize_goodTitle (m : List Char) :
    goodTitle (sanitize_commit_title m) = true := by
  unfold sanitize_commit_title
  set mapped := ((trimWhitespace (firstLine m)).map Char.toLower).map mapSanitize
    with hmapped
  set collapsed := collapseHyphens mapped with hcollapsed
  set trimmed := trimHyphens collapsed with htrimmed
  have hmapped_all : ∀ a ∈ mapped, isTitleChar a = true := by
    intro a ha
    rw [hmapped] at ha
    obtain ⟨b, _, rfl⟩ := List.mem_map.1 ha
    exact isTitleChar_mapSanitize b
  have hcoll_all : ∀ a ∈ collapsed, isTitleChar a = true :=
    fun a ha => hmapped_all a (mem_collapseHyphens ha)
  have hcoll_nodouble : hasDoubleHyphen collapsed = false :=
    hasDoubleHyphen_collapseHyphens mapped
  set truncated :=
    if 50 < trimmed.length then trimHyphens (trimmed.take 50) else trimmed
    with htrunc
  have htrunc_within : truncated <:+: collapsed := by
    rw [htrunc]
    by_cases h : 50 < trimmed.length
    · rw [if_pos h]
      exact ((trimHyphens_within _).trans
        (List.take_prefix 50 trimmed).isInfix).trans (trimHyphens_within _)
    · rw [if_neg h]
      exact trimHyphens_within _
  have htrunc_all : ∀ a ∈ truncated, isTitleChar a = true :=
    fun a ha => hcoll_all a (htrunc_within.sublist.mem ha)
  have htrunc_nodouble : hasDoubleHyphen truncated = false := by
    by_contra hcontra
    have : hasDoubleHyphen truncated = true := by
      cases h : hasDoubleHyphen truncated
      · exact absurd h hcontra
      · rfl
    have := hasDoubleHyphen_mono htrunc_within this
    rw [hcoll_nodouble] at this
    exact Bool.false_ne_true this
  have htrunc_len : truncated.length ≤ 50 := by
    rw [htrunc]
    by_cases h : 50 < trimmed.length
    · rw [if_pos h]
      calc (trimHyphens (trimmed.take 50)).length
          ≤ (trimmed.take 50).length := trimHyphens_length_le _
        _ ≤ 50 := by simp
    · rw [if_neg h]; omega
  have htrunc_head : ∀ a, truncated.head? = some a → a ≠ '-' := by
    rw [htrunc]
    by_cases h : 50 < trimmed.length
    · rw [if_pos h]; exact fun a ha => trimHyphens_head? ha
    · rw [if_neg h]; exact fun a ha => trimHyphens_head? ha
  have htrunc_last : ∀ a, truncated.getLast? = some a → a ≠ '-' := by
    rw [htrunc]
    by_cases h : 50 < trimmed.length
    · rw [if_pos h]; exact fun a ha => trimHyphens_getLast? ha
    · rw [if_neg h]; exact fun a ha => trimHyphens_getLast? ha
  by_cases hempty : truncated.isEmpty
  · rw [if_pos hempty]
    decide
  · rw [if_neg hempty]
    have hlen1 : 1 ≤ truncated.length := by
      cases htc : truncated with
      | nil => rw [htc] at hempty; simp at hempty
      | cons c rest => simp
    unfold goodTitle
    simp only [Bool.and_eq_true, decide_eq_true_eq, Bool.not_eq_true',
      beq_eq_false_iff_ne, List.all_eq_true]
    refine ⟨⟨⟨⟨⟨hlen1, htrunc_len⟩, htrunc_all⟩, ?_⟩, ?_⟩, htrunc_nodouble⟩
    · intro heq
      exact htrunc_head '-' heq rfl
    · intro heq
      exact htrunc_last '-' heq rfl

/-- Model of Rust `str::starts_with` (first argument: the pattern). -/
def startsWithList : List Char → List Char → Bool
  | [], _ => true
  | _ :: _, [] => false
  | p :: ps, c :: cs => p == c && startsWithList ps cs

theorem startsWithList_append (p rest : List Char) :
    startsWithList p (p ++ rest) = true := by
  induction p with
  | nil => simp [startsWithList]
  | cons c cs ih => simp [startsWithList, ih]

/-- Model of `is_transient_pr_branch` (`src/branch_naming.rs`): the name
starts with the gitx namespace and contains exactly two slashes. -/
def is_transient_pr_branch (branch_name : List Char) : Bool :=
  startsWithList "gitx/".data branch_name && branch_name.count '/' == 2

/-- Model of Rust `str::split` at a slash: `n` separators yield `n + 1`
parts. -/
def splitSlash : List Char → List (List Char)
  | [] => [[]]
  | c :: rest =>
    if c = '/' then [] :: splitSlash rest
    else
      match splitSlash rest with
      | [] => [[c]]
      | p :: ps => (c :: p) :: ps

theorem splitSlash_ne_nil : ∀ l : List Char, splitSlash l ≠ [] := by
  intro l
  cases l with
  | nil => simp [splitSlash]
  | cons c rest =>
    by_cases h : c = '/'
    · simp [splitSlash, h]
    · simp only [splitSlash, if_neg h]
      cases splitSlash rest <;> simp

theorem splitSlash_noSlash : ∀ l : List Char, '/' ∉ l → splitSlash l = [l] := by
  intro l
  induction l with
  | nil => intro _; rfl
  | cons c rest ih =>
    intro h
    have hc : c ≠ '/' := fun hceq => h (by simp [hceq])
    have hrest : '/' ∉ rest := fun hm => h (List.mem_cons_of_mem c hm)
    simp only [splitSlash, if_neg hc, ih hrest]

theorem splitSlash_append (a b : List Char) (h : '/' ∉ a) :
    splitSlash (a ++ '/' :: b) = a :: splitSlash b := by
  induction a with
  | nil => simp [splitSlash]
  | cons c a2 ih =>
    have hc : c ≠ '/' := fun hceq => h (by simp [hceq])
    have ha2 : '/' ∉ a2 := fun hm => h (List.mem_cons_of_mem c hm)
    simp only [List.cons_append, splitSlash, if_neg hc, List.append_eq, ih ha2]

/-- Model of `extract_username` (`src/branch_naming.rs`). -/
def extract_username (branch_name : List Char) : Option (List Char) :=
  if !is_transient_pr_branch branch_name then none
  else
    match splitSlash branch_name with
    | _ :: p1 :: _ => some p1
    | _ => none

/-- Model of `extract_feature_name` (`src/branch_naming.rs`). -/
def extract_feature_name (branch_name : List Char) : Option (List Char) :=
  if !is_transient_pr_branch branch_name then none
  else
    match splitSlash branch_name with
    | _ :: _ :: p2 :: _ => some p2
    | _ => none

theorem sanitize_all_titleChar (m : List Char) :
    ∀ c ∈ sanitize_commit_title m, isTitleChar c = true := by
  have hg := sanitize_goodTitle m
  unfold goodTitle at hg
  simp only [Bool.and_eq_true, List.all_eq_true] at hg
  exact fun c hc => hg.1.1.1.2 c hc

theorem sanitize_noSlash (m : List Char) : '/' ∉ sanitize_commit_title m := by
  intro hmem
  have := sanitize_all_titleChar m '/' hmem
  exact absurd this (by decide)

theorem generate_branch_name_decomp (u m : List Char) :
    generate_branch_name u m =
      "gitx".data ++ '/' :: (u ++ '/' :: sanitize_commit_title m) := by
  unfold generate_branch_name
  simp

theorem count_slash_generate (u m : List Char) (h : '/' ∉ u) :
    (generate_branch_name u m).count '/' = 2 := by
  rw [generate_branch_name_decomp]
  rw [List.count_append, List.count_cons_self, List.count_append,
    List.count_cons_self]
  rw [List.count_eq_zero.2 h, List.count_eq_zero.2 (sanitize_noSlash m),
    List.count_eq_zero.2 (by decide : '/' ∉ "gitx".data)]

theorem is_transient_generate (u m : List Char) (h : '/' ∉ u) :
    is_transient_pr_branch (generate_branch_name u m) = true := by
  unfold is_transient_pr_branch
  have h1 : startsWithList "gitx/".data (generate_branch_name u m) = true := by
    unfold generate_branch_name
    have := startsWithList_append "gitx/".data
      (u ++ "/".data ++ sanitize_commit_title m)
    simpa using this
  rw [h1, count_slash_generate u m h]
  rfl

theorem splitSlash_generate (u m : List Char) (h : '/' ∉ u) :
    splitSlash (generate_branch_name u m) =
      ["gitx".data, u, sanitize_commit_title m] := by
  rw [generate_branch_name_decomp]
  rw [splitSlash_append _ _ (by decide), splitSlash_append _ _ h,
    splitSlash_noSlash _ (sanitize_noSlash m)]

/- ## JSON values and the serde model (`src/metadata.rs` persistence) -/

/-- JSON value tree, the target of `serde_json` in the source.  String
payloads that are not syntactically valid JSON are not representable here;
they are not needed, since a structurally undecodable object (for example
one missing a required field) already exercises every decode-failure path
the claims mention. -/
inductive Json where
  | null : Json
  | bool (b : Bool) : Json
  | num (n : Int) : Json
  | str (s : String) : Json
  | arr (elems : List Json) : Json
  | obj (fields : List (String × Json)) : Json

/-- Field lookup in a JSON object (first occurrence, as the derived serde
deserializer reads fields; duplicate keys do not arise in this model). -/
def Json.getField : Json → String → Option Json
  | .obj fields, key => fields.lookup key
  | _, _ => none

abbrev CommitId := String
abbrev Timestamp := String

/-- `IncrementalCommitType` (`src/metadata.rs`). -/
inductive IncrementalCommitType where
  | AmendedCommit : IncrementalCommitType
  | AdditionalCommit : IncrementalCommitType
deriving DecidableEq

/-- `PRStatus` (`src/metadata.rs`). -/
inductive PRStatus where
  | BranchCreated : PRStatus
  | PRCreated : PRStatus
  | PRMerged : PRStatus
  | Cancelled : PRStatus
deriving DecidableEq

/-- `IncrementalCommit` (`src/metadata.rs`). -/
structure IncrementalCommit where
  commit_id : String
  message : String
  commit_type : IncrementalCommitType
  created_at : Timestamp
deriving DecidableEq

/-- `CommitMetadata` (`src/metadata.rs`): the Tracking Record.  The serde
attributes mark `github_pr_number` and `incremental_commits` as defaulted
when absent. -/
structure CommitMetadata where
  pr_branch_name : String
  github_pr_number : Option Nat
  status : PRStatus
  created_at : Timestamp
  last_updated : Timestamp
  original_commit_id : String
  incremental_commits : List IncrementalCommit
deriving DecidableEq

/-- `CommitMetadata::new_branch_created`; `Utc::now()` is the explicit
`now` argument. -/
def CommitMetadata.new_branch_created (pr_branch_name : String)
    (original_commit_id : String) (now : Timestamp) : CommitMetadata where
  pr_branch_name := pr_branch_name
  github_pr_number := none
  status := .BranchCreated
  created_at := now
  last_updated := now
  original_commit_id := original_commit_id
  incremental_commits := []

/-- `CommitMetadata::with_pr_number`. -/
def CommitMetadata.with_pr_number (m : CommitMetadata) (pr_number : Nat)
    (now : Timestamp) : CommitMetadata :=
  { m with github_pr_number := some pr_number, status := .PRCreated,
           last_updated := now }

/-- `CommitMetadata::add_incremental_commit`. -/
def CommitMetadata.add_incremental_commit (m : CommitMetadata)
    (commit_id message : String) (commit_type : IncrementalCommitType)
    (now : Timestamp) : CommitMetadata :=
  { m with
    incremental_commits := m.incremental_commits ++
      [{ commit_id := commit_id, message := message,
         commit_type := commit_type, created_at := now }],
    last_updated := now }

/-- `CommitMetadata::is_commit_changed`. -/
def CommitMetadata.is_commit_changed (m : CommitMetadata)
    (current_commit_id : String) : Bool :=
  m.original_commit_id != current_commit_id

/- ### serde encoders (field order follows the struct declarations) -/

def encodePRStatus : PRStatus → Json
  | .BranchCreated => .str "BranchCreated"
  | .PRCreated => .str "PRCreated"
  | .PRMerged => .str "PRMerged"
  | .Cancelled => .str "Cancelled"

def encodeIncrementalCommitType : IncrementalCommitType → Json
  | .AmendedCommit => .str "AmendedCommit"
  | .AdditionalCommit => .str "AdditionalCommit"

def encodeIncrementalCommit (ic : IncrementalCommit) : Json :=
  .obj [("commit_id", .str ic.commit_id),
        ("message", .str ic.message),
        ("commit_type", encodeIncrementalCommitType ic.commit_type),
        ("created_at", .str ic.created_at)]

def encodeCommitMetadata (m : CommitMetadata) : Json :=
  .obj [("pr_branch_name", .str m.pr_branch_name),
        ("github_pr_number",
          match m.github_pr_number with
          | some n => .num (n : Int)
          | none => .null),
        ("status", encodePRStatus m.status),
        ("created_at", .str m.created_at),
        ("last_updated", .str m.last_updated),
        ("original_commit_id", .str m.original_commit_id),
        ("incremental_commits",
          .arr (m.incremental_commits.map encodeIncrementalCommit))]

/- ### serde decoders -/

def decodeString : Json → Except String String
  | .str s => .ok s
  | _ => .error "expected string"

/-- Timestamps deserialize from their string form; RFC3339 validity is not
modelled. -/
def decodeTimestamp : Json → Except String Timestamp :=
  decodeString

def decodeU64 : Json → Except String Nat
  | .num n => if 0 ≤ n then .ok n.toNat else .error "expected u64"
  | _ => .error "expected u64"

def decodeOptU64 : Json → Except String (Option Nat)
  | .null => .ok none
  | j => (decodeU64 j).map some

def decodePRStatus : Json → Except String PRStatus
  | .str "BranchCreated" => .ok .BranchCreated
  | .str "PRCreated" => .ok .PRCreated
  | .str "PRMerged" => .ok .PRMerged
  | .str "Cancelled" => .ok .Cancelled
  | _ => .error "invalid PRStatus"

def decodeIncrementalCommitType : Json → Except String IncrementalCommitType
  | .str "AmendedCommit" => .ok .AmendedCommit
  | .str "AdditionalCommit" => .ok .AdditionalCommit
  | _ => .error "invalid IncrementalCommitType"

def getRequired (j : Json) (key : String) : Except String Json :=
  match j.getField key with
  | some v => .ok v
  | none => .error ("missing field " ++ key)

def decodeIncrementalCommit (j : Json) : Except String IncrementalCommit :=
  match getRequired j "commit_id" with
  | .error e => .error e
  | .ok v1 =>
    match decodeString v1 with
    | .error e => .error e
    | .ok cid =>
      match getRequired j "message" with
      | .error e => .error e
      | .ok v2 =>
        match decodeString v2 with
        | .error e => .error e
        | .ok msg =>
          match getRequired j "commit_type" with
          | .error e => .error e
          | .ok v3 =>
            match decodeIncrementalCommitType v3 with
            | .error e => .error e
            | .ok ty =>
              match getRequired j "created_at" with
              | .error e => .error e
              | .ok v4 =>
                match decodeTimestamp v4 with
                | .error e => .error e
                | .ok ca =>
                  .ok { commit_id := cid, message := msg,
                        commit_type := ty, created_at := ca }

def decodeIncCommits : List Json → Except String (List IncrementalCommit)
  | [] => .ok []
  | j :: rest =>
    match decodeIncrementalCommit j with
    | .error e => .error e
    | .ok ic =>
      match decodeIncCommits rest with
      | .error e => .error e
      | .ok ics => .ok (ic :: ics)

def decodeIncrementalCommitList (j : Json) : Except String (List IncrementalCommit) :=
  match j with
  | .arr elems => decodeIncCommits elems
  | _ => .error "expected array"

/-- The derived deserializer for `CommitMetadata`: required fields fail
when missing; `github_pr_number` and `incremental_commits` carry serde
default attributes and fall back to `none` / `[]` when the key is absent. -/
def decodeCommitMetadata (j : Json) : Except String CommitMetadata :=
  match getRequired j "pr_branch_name" with
  | .error e => .error e
  | .ok v1 =>
    match decodeString v1 with
    | .error e => .error e
    | .ok b =>
      match (match j.getField "github_pr_number" with
             | some v => decodeOptU64 v
             | none => .ok none) with
      | .error e => .error e
      | .ok prn =>
        match getRequired j "status" with
        | .error e => .error e
        | .ok v2 =>
          match decodePRStatus v2 with
          | .error e => .error e
          | .ok st =>
            match getRequired j "created_at" with
            | .error e => .error e
            | .ok v3 =>
              match decodeTimestamp v3 with
              | .error e => .error e
              | .ok ca =>
                match getRequired j "last_updated" with
                | .error e => .error e
                | .ok v4 =>
                  match decodeTimestamp v4 with
                  | .error e => .error e
                  | .ok lu =>
                    match getRequired j "original_commit_id" with
                    | .error e => .error e
                    | .ok v5 =>
                      match decodeString v5 with
                      | .error e => .error e
                      | .ok oc =>
                        match (match j.getField "incremental_commits" with
                               | some v => decodeIncrementalCommitList v
                               | none => .ok []) with
                        | .error e => .error e
                        | .ok incs =>
                          .ok { pr_branch_name := b, github_pr_number := prn,
                                status := st, created_at := ca,
                                last_updated := lu, original_commit_id := oc,
                                incremental_commits := incs }

theorem decode_encode_incremental (ic : IncrementalCommit) :
    decodeIncrementalCommit (encodeIncrementalCommit ic) = .ok ic := by
  cases ic with
  | mk cid msg ty ca =>
    cases ty <;>
      simp [decodeIncrementalCommit, encodeIncrementalCommit, getRequired,
        Json.getField, List.lookup, decodeString, decodeTimestamp,
        decodeIncrementalCommitType, encodeIncrementalCommitType]

theorem decode_encode_incList (incs : List IncrementalCommit) :
    decodeIncCommits (incs.map encodeIncrementalCommit) = .ok incs := by
  induction incs with
  | nil => rfl
  | cons ic rest ih =>
    simp [decodeIncCommits, decode_encode_incremental, ih]

theorem decode_encode_metadata (m : CommitMetadata) :
    decodeCommitMetadata (encodeCommitMetadata m) = .ok m := by
  cases m with
  | mk b prn st ca lu oc incs =>
    cases st <;> cases prn <;>
      simp [decodeCommitMetadata, encodeCommitMetadata, getRequired,
        Json.getField, List.lookup, decodeString, decodeTimestamp,
        decodePRStatus, encodePRStatus, decodeOptU64, decodeU64,
        decodeIncrementalCommitList, decode_encode_incList, Except.map]

/- ## Repository state and the Tracking Store (`src/metadata.rs`) -/

/-- A commit object in the repository: identity, message, parent ids. -/
structure CommitData where
  cid : CommitId
  message : String
  parents : List CommitId
deriving DecidableEq

/-- The repository state visible to the modelled operations: the object
store, the local branches (`refs/heads` shorthand name with tip commit),
the `refs/notes/gitx-metadata` side channel, and the configured
`user.name`.  A note entry's payload is `none` when the note message is
not valid UTF-8 (Rust `note.message()` returns `None` there). -/
structure Repo where
  commits : List CommitData
  branches : List (String × CommitId)
  notes : List (CommitId × Option Json)
  userName : Option String

abbrev NotesStore := List (CommitId × Option Json)

/-- `Repository::find_commit`. -/
def Repo.find_commit (repo : Repo) (cid : CommitId) : Option CommitData :=
  repo.commits.find? (fun c => c.cid == cid)

def lookupBranch (repo : Repo) (name : String) : Option CommitId :=
  repo.branches.lookup name

/-- `get_commit_metadata` (`src/metadata.rs`): a missing note (or a note
whose message is not UTF-8) yields `Ok(None)`; a present payload is
deserialized and a deserialization failure propagates as an error via the
source's early-return operator. -/
def get_commit_metadata (notes : NotesStore) (commit_id : CommitId) :
    Except String (Option CommitMetadata) :=
  match notes.lookup commit_id with
  | none => .ok none
  | some none => .ok none
  | some (some content) =>
    match decodeCommitMetadata content with
    | .ok metadata => .ok (some metadata)
    | .error e => .error e

/-- `store_commit_metadata` (`src/metadata.rs`): `repo.note` with
`force = false`, which fails when a note already exists for the commit. -/
def store_commit_metadata (notes : NotesStore) (commit_id : CommitId)
    (metadata : CommitMetadata) : Except String NotesStore :=
  match notes.lookup commit_id with
  | some _ => .error "note exists"
  | none => .ok ((commit_id, some (encodeCommitMetadata metadata)) :: notes)

/-- `update_commit_metadata` (`src/metadata.rs`): `repo.note` with
`force = true`, overwriting any existing note. -/
def update_commit_metadata (notes : NotesStore) (commit_id : CommitId)
    (metadata : CommitMetadata) : NotesStore :=
  (commit_id, some (encodeCommitMetadata metadata)) ::
    notes.filter (fun p => p.1 != commit_id)

/-- `has_pr_metadata` (`src/metadata.rs`). -/
def has_pr_metadata (notes : NotesStore) (commit_id : CommitId) : Bool :=
  match get_commit_metadata notes commit_id with
  | .ok (some _) => true
  | _ => false

/-- `PRStatusInfo` (`src/metadata.rs`). -/
structure PRStatusInfo where
  commit_id : String
  commit_message : String
  branch_name : String
  pr_number : Option Nat
  status : PRStatus
  created_at : Timestamp
  last_updated : Timestamp
  incremental_count : Nat
  latest_incremental : Option IncrementalCommit
deriving DecidableEq

/-- `get_all_pr_status` (`src/metadata.rs`): the source is a stub carrying
a TODO comment about the notes API and returns an empty vector
unconditionally. -/
def get_all_pr_status (_repo : Repo) : Except String (List PRStatusInfo) :=
  .ok []

/-- `list_all_pr_commits` (`src/metadata.rs`): the source is a stub
carrying a TODO comment about the notes API and returns an empty vector
unconditionally. -/
def list_all_pr_commits (_repo : Repo) : Except String (List (CommitId × CommitMetadata)) :=
  .ok []

/- ## Commit classifier (`src/git_ops.rs`) -/

/-- `CommitInfo` (`src/git_ops.rs`). -/
structure CommitInfo where
  id : CommitId
  message : String
  potential_branch_name : String
deriving DecidableEq

/-- `CommitUpdateType` (`src/git_ops.rs`). -/
inductive CommitUpdateType where
  | NewCommit (info : CommitInfo) : CommitUpdateType
  | IncrementalUpdate (original_oid updated_oid : CommitId)
      (metadata : CommitMetadata) : CommitUpdateType
deriving DecidableEq

/-- String-level `generate_branch_name`. -/
def generate_branch_name_str (username commit_message : String) : String :=
  ⟨generate_branch_name username.data commit_message.data⟩

/-- The main-branch head used by the classifier:
`find_reference("refs/heads/main").or_else(master)`. -/
def resolveMainHead (repo : Repo) : Option CommitId :=
  match lookupBranch repo "main" with
  | some c => some c
  | none => lookupBranch repo "master"

/-- The revision walk from a head commit: the first-parent ancestry chain,
newest first.  `fuel` bounds the recursion; callers pass more fuel than
there are commits, so the chain always ends at a root (or at a missing
object) before fuel runs out. -/
def firstParentChain (repo : Repo) : Nat → CommitId → List CommitId
  | 0, _ => []
  | fuel + 1, c =>
    c :: match repo.find_commit c with
      | none => []
      | some data =>
        match data.parents with
        | [] => []
        | p :: _ => firstParentChain repo fuel p

/-- The loop body of `get_commits_needing_processing_impl`, processed over
the walked commit ids in walk order; any per-commit error aborts the whole
walk, as the source propagates errors out of the loop. -/
def classifyList (repo : Repo) (username : String) :
    List CommitId → Except String (List CommitUpdateType)
  | [] => .ok []
  | oid :: rest =>
    match repo.find_commit oid with
    | none => .error "commit not found"
    | some commit =>
      match get_commit_metadata repo.notes oid with
      | .error e => .error e
      | .ok mdOpt =>
        match classifyList repo username rest with
        | .error e => .error e
        | .ok restActs =>
          match mdOpt with
          | some existing_metadata =>
            if existing_metadata.is_commit_changed oid then
              .ok (.IncrementalUpdate oid oid existing_metadata :: restActs)
            else
              .ok restActs
          | none =>
            .ok (.NewCommit
              { id := oid, message := commit.message,
                potential_branch_name :=
                  generate_branch_name_str username commit.message } :: restActs)

/-- `get_commits_needing_processing_impl` (`src/git_ops.rs`): resolve the
main head, walk at most 1 (latest-only) or 10 commits, classify each. -/
def get_commits_needing_processing_impl (repo : Repo) (latest_only : Bool) :
    Except String (List CommitUpdateType) :=
  match resolveMainHead repo with
  | none => .error "reference not found"
  | some main_head =>
    let username := repo.userName.getD "unknown"
    let commit_limit := if latest_only then 1 else 10
    classifyList repo username
      ((firstParentChain repo (repo.commits.length + 1) main_head).take commit_limit)

/-- `get_commits_needing_processing` (`src/git_ops.rs`). -/
def get_commits_needing_processing (repo : Repo) :
    Except String (List CommitUpdateType) :=
  get_commits_needing_processing_impl repo false

/-- `get_latest_commit_needing_processing` (`src/git_ops.rs`). -/
def get_latest_commit_needing_processing (repo : Repo) :
    Except String (List CommitUpdateType) :=
  get_commits_needing_processing_impl repo true

/- ## Stack resolver (`src/git_ops.rs`) -/

/-- The fallback of `determine_base_branch_for_commit`: prefer the `main`
ref, then `master`, then the fixed default string; a found reference
contributes its shorthand name. -/
def primaryBranchName (repo : Repo) : String :=
  match lookupBranch repo "main" with
  | some _ => "main"
  | none =>
    match lookupBranch repo "master" with
    | some _ => "master"
    | none => "main"

/-- `determine_base_branch_for_commit` (`src/git_ops.rs`). -/
def determine_base_branch_for_commit (repo : Repo) (commit_oid : CommitId) :
    Except String String :=
  match repo.find_commit commit_oid with
  | none => .error "commit not found"
  | some commit =>
    match commit.parents with
    | parent_oid :: _ =>
      match repo.find_commit parent_oid with
      | none => .error "parent commit not found"
      | some _ =>
        -- the source guards with an `if let Ok(Some(..))`, so both a
        -- lookup error and an absent record fall through to the default
        match get_commit_metadata repo.notes parent_oid with
        | .ok (some parent_metadata) =>
          match parent_metadata.github_pr_number with
          | some _ => .ok parent_metadata.pr_branch_name
          | none => .ok (primaryBranchName repo)
        | _ => .ok (primaryBranchName repo)
    | [] => .ok (primaryBranchName repo)

/- ## PR body generation (`src/github_utils.rs`) -/

/-- Model of Rust `str::split_inclusive` at newline: pieces keep their
terminating newline; a final run without newline forms the last piece; the
empty string yields no pieces. -/
def splitInclusiveNewline : List Char → List (List Char)
  | [] => []
  | c :: rest =>
    if c = '\n' then ['\n'] :: splitInclusiveNewline rest
    else
      match splitInclusiveNewline rest with
      | [] => [[c]]
      | p :: ps => (c :: p) :: ps

/-- The per-line trim of Rust `str::lines`: strip one trailing newline
and, when a newline was stripped, one trailing carriage return. -/
def lineStrip (l : List Char) : List Char :=
  if l.getLast? == some '\n' then
    let l2 := l.dropLast
    if l2.getLast? == some '\x0d' then l2.dropLast else l2
  else l

/-- Model of Rust `str::lines` collected into a list. -/
def linesOf (s : String) : List String :=
  (splitInclusiveNewline s.data).map (fun l => String.mk (lineStrip l))

/-- `format_commit_type` (`src/github_utils.rs`). -/
def format_commit_type : IncrementalCommitType → String
  | .AmendedCommit => "Amended"
  | .AdditionalCommit => "Additional"

/-- chrono timestamp formatting is modelled as the timestamp string
itself (timestamps are opaque in this model). -/
def formatTimestamp (t : Timestamp) : String := t

/-- The enumerated rendering loop inside `generate_pr_body`. -/
def renderIncrementalCommits : Nat → List IncrementalCommit → String
  | _, [] => ""
  | i, ic :: rest =>
    toString (i + 1) ++ ". **" ++ format_commit_type ic.commit_type ++ "** ("
      ++ formatTimestamp ic.created_at ++ ")\n   - "
      ++ ((linesOf ic.message).head?.getD "") ++ "\n"
      ++ renderIncrementalCommits (i + 1) rest

/-- `generate_pr_body` (`src/github_utils.rs`). -/
def generate_pr_body (metadata : CommitMetadata) (commit_message : String) :
    String :=
  let ls := linesOf commit_message
  let descr :=
    if 1 < ls.length then
      "## Description\n\n" ++ String.intercalate "\n" (ls.drop 1) ++ "\n\n"
    else ""
  let updates :=
    if metadata.incremental_commits.isEmpty then ""
    else "## Updates\n\n"
      ++ renderIncrementalCommits 0 metadata.incremental_commits ++ "\n"
  let footer := "---\n*Generated by gitx - Branch: `"
      ++ metadata.pr_branch_name ++ "`*\n*Created: "
      ++ formatTimestamp metadata.created_at ++ "*\n"
      ++ (if metadata.incremental_commits.isEmpty then ""
          else "*Last updated: " ++ formatTimestamp metadata.last_updated ++ "*\n")
  descr ++ updates ++ footer

/- ## Branch lifecycle operations (`src/git_ops.rs`) -/

/-- The message composed for a stacked incremental commit: references the
first line of the updated message and the first 8 characters of the
original commit id. -/
def incremental_message (updated_message : String)
    (original_commit_oid : CommitId) : String :=
  "Incremental update to: " ++ ((linesOf updated_message).head?.getD "")
    ++ "\n\nUpdated from commit " ++ String.mk (original_commit_oid.data.take 8)

/-- `create_incremental_commit` (`src/git_ops.rs`), local mode: author a
new commit on top of the PR branch tip carrying the updated tree, then
append an incremental entry to the Tracking Record — the source passes
`IncrementalCommitType::AmendedCommit` unconditionally — and overwrite the
note under the original commit id.  `new_oid` stands for the object id git
assigns to the newly created commit; `now` for `Utc::now()`. -/
def create_incremental_commit (repo : Repo)
    (original_commit_oid updated_commit_oid : CommitId)
    (pr_metadata : CommitMetadata) (new_oid : CommitId) (now : Timestamp) :
    Except String (Repo × CommitMetadata) :=
  match repo.branches.lookup pr_metadata.pr_branch_name with
  | none => .error "branch not found"
  | some pr_branch_tip =>
    match repo.find_commit updated_commit_oid with
    | none => .error "commit not found"
    | some updated_commit =>
      let incr_message :=
        incremental_message updated_commit.message original_commit_oid
      let newCommit : CommitData :=
        { cid := new_oid, message := incr_message, parents := [pr_branch_tip] }
      let repo1 := { repo with
        commits := newCommit :: repo.commits,
        branches := (pr_metadata.pr_branch_name, new_oid) ::
          repo.branches.filter (fun p => p.1 != pr_metadata.pr_branch_name) }
      let updated_metadata := pr_metadata.add_incremental_commit
        updated_commit_oid updated_commit.message .AmendedCommit now
      let repo2 := { repo1 with
        notes := update_commit_metadata repo1.notes original_commit_oid
          updated_metadata }
      .ok (repo2, updated_metadata)

/- ## Transient-branch protocol (`src/git_ops.rs`) -/

/-- World state for the remote-mode protocol: the repository plus the set
of branch names whose push to the remote fails (modelling the external
push effect's outcome). -/
structure World where
  repo : Repo
  pushFailures : List String

/-- `PRInfo` (`src/github_utils.rs`). -/
structure PRInfo where
  number : Nat
  url : String
  title : String
deriving DecidableEq

/-- The Remote Review Gateway (`GitHubClientTrait`) as a capability record:
each operation is the modelled outcome of one awaited remote call. -/
structure GitHubClientModel where
  create_pr : String → String → String → String → Except String PRInfo
  update_pr : Nat → Option String → Option String → Except String Unit

/-- Observable effects of the transient-branch protocol, in the order they
are performed. -/
inductive PREvent where
  | createdLocalBranch (name : String) : PREvent
  | pushedBranch (name : String) : PREvent
  | storedRecord (commit_id : CommitId) (metadata : CommitMetadata) : PREvent
  | calledCreatePR (branch title body base : String) : PREvent
  | updatedRecord (commit_id : CommitId) (metadata : CommitMetadata) : PREvent
  | deletedLocalBranch (name : String) : PREvent
deriving DecidableEq

inductive PREventKind where
  | create : PREventKind
  | push : PREventKind
  | store : PREventKind
  | callPR : PREventKind
  | updateRec : PREventKind
  | deleteBranch : PREventKind
deriving DecidableEq

def PREvent.kind : PREvent → PREventKind
  | .createdLocalBranch _ => .create
  | .pushedBranch _ => .push
  | .storedRecord _ _ => .store
  | .calledCreatePR _ _ _ _ => .callPR
  | .updatedRecord _ _ => .updateRec
  | .deletedLocalBranch _ => .deleteBranch

/-- `create_transient_pr_branch_with_github_client` (`src/git_ops.rs`):
create the local branch, push it, persist the Tracking Record, resolve the
base, call the gateway's create-PR operation, update the record with the
PR number, delete the local branch.  Every failing step returns the error
immediately, leaving the state reached so far; the returned trace lists
the effects that were performed. -/
def create_transient_pr_branch_with_github_client
    (w : World) (commit_info : CommitInfo) (client : GitHubClientModel)
    (now1 now2 : Timestamp) : World × List PREvent × Except String PRInfo :=
  match w.repo.find_commit commit_info.id with
  | none => (w, [], .error "commit not found")
  | some commit =>
    -- 1. create temporary local branch (not forced: fails when it exists)
    if (w.repo.branches.lookup commit_info.potential_branch_name).isSome then
      (w, [], .error "branch already exists")
    else
      let w1 := { w with repo := { w.repo with
        branches := (commit_info.potential_branch_name, commit_info.id)
          :: w.repo.branches } }
      let tr1 := [PREvent.createdLocalBranch commit_info.potential_branch_name]
      -- 2. push branch to remote
      if commit_info.potential_branch_name ∈ w.pushFailures then
        (w1, tr1, .error "push failed")
      else
        let tr2 := tr1 ++ [PREvent.pushedBranch commit_info.potential_branch_name]
        -- 3. create metadata (before any remote PR call)
        let commit_message := commit.message
        let commit_metadata := CommitMetadata.new_branch_created
          commit_info.potential_branch_name commit_info.id now1
        match store_commit_metadata w1.repo.notes commit_info.id commit_metadata with
        | .error e => (w1, tr2, .error e)
        | .ok notes2 =>
          let w2 := { w1 with repo := { w1.repo with notes := notes2 } }
          let tr3 := tr2 ++ [PREvent.storedRecord commit_info.id commit_metadata]
          -- 4. create the PR
          let pr_title := (linesOf commit_message).head?.getD "Untitled commit"
          let pr_body := generate_pr_body commit_metadata commit_message
          match determine_base_branch_for_commit w2.repo commit_info.id with
          | .error e => (w2, tr3, .error e)
          | .ok base_branch =>
            let tr4 := tr3 ++ [PREvent.calledCreatePR
              commit_info.potential_branch_name pr_title pr_body base_branch]
            match client.create_pr commit_info.potential_branch_name pr_title
                pr_body base_branch with
            | .error e => (w2, tr4, .error e)
            | .ok pr_info =>
              -- 5. update metadata with PR number
              let updated_metadata :=
                commit_metadata.with_pr_number pr_info.number now2
              let w3 := { w2 with repo := { w2.repo with
                notes := update_commit_metadata w2.repo.notes commit_info.id
                  updated_metadata } }
              let tr5 := tr4 ++ [PREvent.updatedRecord commit_info.id updated_metadata]
              -- 6. delete the local branch (kept only on the remote)
              let w4 := { w3 with repo := { w3.repo with
                branches := w3.repo.branches.filter
                  (fun p => p.1 != commit_info.potential_branch_name) } }
              (w4, tr5 ++ [PREvent.deletedLocalBranch commit_info.potential_branch_name],
                .ok pr_info)

/- ## Claim C7 -/

/-- C7: for every operator string and every commit message (including empty
and all-punctuation messages), the derived branch name is
gitx/<operator>/<title> where the title segment is 1 to 50 characters drawn
from lowercase letters, digits and hyphens, with no leading, trailing, or
consecutive hyphens; when sanitization yields an empty title the fixed
placeholder is substituted, so the title segment is never empty. -/
theorem claim_c7_branch_name_format (operator commit_message : List Char) :
    generate_branch_name operator commit_message =
      "gitx/".data ++ operator ++ "/".data ++ sanitize_commit_title commit_message
    ∧ goodTitle (sanitize_commit_title commit_message) = true :=
  ⟨rfl, sanitize_goodTitle commit_message⟩

/- ## Claim C10 -/

/-- C10: for every username containing no slash and every commit message,
the name produced by `generate_branch_name` is accepted by
`is_transient_pr_branch`, `extract_username` applied to it returns exactly
the username, and `extract_feature_name` returns exactly the sanitized
title segment. -/
theorem claim_c10_deriver_recognizer_compat (username commit_message : List Char)
    (h : '/' ∉ username) :
    is_transient_pr_branch (generate_branch_name username commit_message) = true
    ∧ extract_username (generate_branch_name username commit_message) = some username
    ∧ extract_feature_name (generate_branch_name username commit_message) =
        some (sanitize_commit_title commit_message) := by
  refine ⟨is_transient_generate username commit_message h, ?_, ?_⟩
  · unfold extract_username
    rw [is_transient_generate username commit_message h,
      splitSlash_generate username commit_message h]
    rfl
  · unfold extract_feature_name
    rw [is_transient_generate username commit_message h,
      splitSlash_generate username commit_message h]
    rfl

theorem claim_c10_witness :
    '/' ∉ "alice".data
    ∧ (is_transient_pr_branch (generate_branch_name "alice".data "Add login flow".data) = true
       ∧ extract_username (generate_branch_name "alice".data "Add login flow".data) =
           some "alice".data
       ∧ extract_feature_name (generate_branch_name "alice".data "Add login flow".data) =
           some (sanitize_commit_title "Add login flow".data)) :=
  ⟨by decide,
   claim_c10_deriver_recognizer_compat "alice".data "Add login flow".data (by decide)⟩

/- ## Claim C9 -/

/-- C9: a JSON Tracking Record payload that is valid except that the keys
github_pr_number and/or incremental_commits are absent decodes successfully
to a record with an absent PR number and an empty incremental list. -/
theorem claim_c9_missing_keys_default (fields : List (String × Json))
    (b : String) (sj : Json) (st : PRStatus) (ca lu : Timestamp) (oc : String)
    (h1 : (Json.obj fields).getField "pr_branch_name" = some (.str b))
    (h2 : (Json.obj fields).getField "github_pr_number" = none)
    (h3 : (Json.obj fields).getField "status" = some sj)
    (h4 : decodePRStatus sj = .ok st)
    (h5 : (Json.obj fields).getField "created_at" = some (.str ca))
    (h6 : (Json.obj fields).getField "last_updated" = some (.str lu))
    (h7 : (Json.obj fields).getField "original_commit_id" = some (.str oc))
    (h8 : (Json.obj fields).getField "incremental_commits" = none) :
    decodeCommitMetadata (Json.obj fields) =
      .ok { pr_branch_name := b, github_pr_number := none, status := st,
            created_at := ca, last_updated := lu, original_commit_id := oc,
            incremental_commits := [] } := by
  unfold decodeCommitMetadata getRequired
  rw [h1, h2, h3, h5, h6, h7, h8]
  simp [decodeString, decodeTimestamp, h4]

/-- The record of `test_backward_compatibility` in `src/metadata.rs`, with
the two defaulted keys absent entirely. -/
def c9Fields : List (String × Json) :=
  [("pr_branch_name", .str "gitx/test/old-feature"),
   ("original_commit_id", .str "old123"),
   ("status", .str "BranchCreated"),
   ("created_at", .str "2023-01-01T00:00:00Z"),
   ("last_updated", .str "2023-01-01T00:00:00Z")]

theorem claim_c9_witness :
    decodeCommitMetadata (Json.obj c9Fields) =
      .ok { pr_branch_name := "gitx/test/old-feature", github_pr_number := none,
            status := .BranchCreated, created_at := "2023-01-01T00:00:00Z",
            last_updated := "2023-01-01T00:00:00Z", original_commit_id := "old123",
            incremental_commits := [] } :=
  claim_c9_missing_keys_default c9Fields "gitx/test/old-feature"
    (.str "BranchCreated") .BranchCreated "2023-01-01T00:00:00Z"
    "2023-01-01T00:00:00Z" "old123" rfl rfl rfl rfl rfl rfl rfl rfl

/- ## Claim C6 -/

def c6Meta : CommitMetadata :=
  CommitMetadata.new_branch_created "gitx/alice/feat" "aaaa0001"
    "2024-01-01T00:00:00Z"

def c6Repo : Repo :=
  { commits := [{ cid := "aaaa0001", message := "Feat", parents := [] }],
    branches := [("main", "aaaa0001")],
    notes := [("aaaa0001", some (encodeCommitMetadata c6Meta))],
    userName := some "alice" }

/-- C6 (code bug): a record has been stored for commit aaaa0001 and the
store's get finds it, yet both listing operations return the empty list —
the source stubs them out with a TODO, so the stored pair never appears in
any listing. -/
theorem claim_c6_listing_stub :
    get_commit_metadata c6Repo.notes "aaaa0001" = .ok (some c6Meta)
    ∧ list_all_pr_commits c6Repo = .ok []
    ∧ get_all_pr_status c6Repo = .ok [] :=
  ⟨by simp [get_commit_metadata, c6Repo, List.lookup, decode_encode_metadata],
   rfl, rfl⟩

/- ## Claim C3 -/

/-- A stored payload that cannot be decoded into a Tracking Record: a JSON
object missing every required field. -/
def c3BadPayload : Json := Json.obj []

def c3Repo : Repo :=
  { commits := [{ cid := "bbbb0001", message := "Add feature", parents := [] }],
    branches := [("main", "bbbb0001")],
    notes := [("bbbb0001", some c3BadPayload)],
    userName := some "alice" }

/-- C3 counterexample: with a malformed stored payload under the walked
commit, the store's get returns a decode error instead of treating the
record as absent, and the classifier walk aborts with that error instead of
classifying the commit as new. -/
theorem claim_c3_counterexample :
    get_commit_metadata c3Repo.notes "bbbb0001" =
      .error "missing field pr_branch_name"
    ∧ get_commits_needing_processing_impl c3Repo false =
      .error "missing field pr_branch_name" :=
  ⟨rfl, rfl⟩

theorem classifyList_cons_error (repo : Repo) (username : String)
    (oid : CommitId) (rest : List CommitId) (c : CommitData) (e : String)
    (hfind : repo.find_commit oid = some c)
    (hget : get_commit_metadata repo.notes oid = .error e) :
    classifyList repo username (oid :: rest) = .error e := by
  unfold classifyList
  rw [hfind, hget]

/-- C3 amended: a malformed payload is not recovered locally — get returns
a decode error rather than no-record, and when the walked head commit
carries such a payload the classifier walk aborts with that error rather
than classifying the commit as if it had no record. -/
theorem claim_c3_malformed_aborts (repo : Repo) (latest_only : Bool)
    (head_cid : CommitId) (c : CommitData) (j : Json) (e : String)
    (hhead : resolveMainHead repo = some head_cid)
    (hfind : repo.find_commit head_cid = some c)
    (hnote : repo.notes.lookup head_cid = some (some j))
    (hdec : decodeCommitMetadata j = .error e) :
    get_commit_metadata repo.notes head_cid = .error e
    ∧ get_commits_needing_processing_impl repo latest_only = .error e := by
  have hget : get_commit_metadata repo.notes head_cid = .error e := by
    unfold get_commit_metadata
    rw [hnote]
    simp [hdec]
  refine ⟨hget, ?_⟩
  unfold get_commits_needing_processing_impl
  rw [hhead]
  show classifyList repo (repo.userName.getD "unknown")
      (List.take (if latest_only = true then 1 else 10)
        (firstParentChain repo (repo.commits.length + 1) head_cid)) =
    Except.error e
  obtain ⟨tail, htail⟩ :
      ∃ tail, firstParentChain repo (repo.commits.length + 1) head_cid =
        head_cid :: tail := ⟨_, rfl⟩
  rw [htail]
  obtain ⟨k, hk⟩ : ∃ k, (if latest_only = true then 1 else 10) = k + 1 := by
    cases latest_only
    · exact ⟨9, rfl⟩
    · exact ⟨0, rfl⟩
  rw [hk, List.take_succ_cons]
  exact classifyList_cons_error repo _ head_cid _ c e hfind hget

theorem claim_c3_witness :
    resolveMainHead c3Repo = some "bbbb0001"
    ∧ c3Repo.notes.lookup "bbbb0001" = some (some c3BadPayload)
    ∧ decodeCommitMetadata c3BadPayload = .error "missing field pr_branch_name"
    ∧ (get_commit_metadata c3Repo.notes "bbbb0001" =
         .error "missing field pr_branch_name"
       ∧ get_commits_needing_processing_impl c3Repo true =
         .error "missing field pr_branch_name") :=
  ⟨rfl, rfl, rfl,
   claim_c3_malformed_aborts c3Repo true "bbbb0001"
     { cid := "bbbb0001", message := "Add feature", parents := [] }
     c3BadPayload "missing field pr_branch_name" rfl rfl rfl rfl⟩

/- ## Claim C4 -/

/-- The base-branch rule as the claim states it: the parent's tracked
branch name exactly when the commit has at least one parent and that first
parent's Tracking Record exists and carries a PR number; in every other
case the repository's primary branch name. -/
def claimResolveBase (repo : Repo) (cid : CommitId) : String :=
  match repo.find_commit cid with
  | none => primaryBranchName repo
  | some c =>
    match c.parents with
    | [] => primaryBranchName repo
    | p :: _ =>
      match get_commit_metadata repo.notes p with
      | .ok (some record) =>
        if record.github_pr_number.isSome then record.pr_branch_name
        else primaryBranchName repo
      | _ => primaryBranchName repo

/-- C4: for every commit present in the repository (whose first parent, if
any, is also present), `determine_base_branch_for_commit` returns exactly
what the claim's rule prescribes. -/
theorem claim_c4_resolve_base (repo : Repo) (cid : CommitId) (c : CommitData)
    (hfind : repo.find_commit cid = some c)
    (hparent : ∀ p, c.parents.head? = some p → (repo.find_commit p).isSome) :
    determine_base_branch_for_commit repo cid =
      .ok (claimResolveBase repo cid) := by
  unfold determine_base_branch_for_commit claimResolveBase
  rw [hfind]
  obtain ⟨ccid, cmsg, cparents⟩ := c
  cases cparents with
  | nil => rfl
  | cons p ps =>
    have hps := hparent p (by simp)
    obtain ⟨pc, hpc⟩ := Option.isSome_iff_exists.1 hps
    show (match repo.find_commit p with
      | none => Except.error "parent commit not found"
      | some _ =>
        match get_commit_metadata repo.notes p with
        | .ok (some parent_metadata) =>
          match parent_metadata.github_pr_number with
          | some _ => Except.ok parent_metadata.pr_branch_name
          | none => Except.ok (primaryBranchName repo)
        | _ => Except.ok (primaryBranchName repo)) =
      Except.ok (match get_commit_metadata repo.notes p with
        | .ok (some record) =>
          if record.github_pr_number.isSome then record.pr_branch_name
          else primaryBranchName repo
        | _ => primaryBranchName repo)
    rw [hpc]
    cases hm : get_commit_metadata repo.notes p with
    | error e => rfl
    | ok mo =>
      cases mo with
      | none => rfl
      | some record =>
        cases hn : record.github_pr_number with
        | none => simp [hn]
        | some n => simp [hn]

def c4Meta : CommitMetadata :=
  (CommitMetadata.new_branch_created "gitx/alice/add-login" "cccc0001"
    "2024-01-01T00:00:00Z").with_pr_number 1 "2024-01-01T00:05:00Z"

def c4Repo : Repo :=
  { commits :=
      [{ cid := "cccc0002", message := "Add profile", parents := ["cccc0001"] },
       { cid := "cccc0001", message := "Add login", parents := [] }],
    branches := [("main", "cccc0002")],
    notes := [("cccc0001", some (encodeCommitMetadata c4Meta))],
    userName := some "alice" }

theorem claim_c4_witness :
    determine_base_branch_for_commit c4Repo "cccc0002" =
      .ok (claimResolveBase c4Repo "cccc0002")
    ∧ claimResolveBase c4Repo "cccc0002" = "gitx/alice/add-login" :=
  ⟨claim_c4_resolve_base c4Repo "cccc0002"
      { cid := "cccc0002", message := "Add profile", parents := ["cccc0001"] }
      rfl
      (by
        intro p hp
        have hpe : "cccc0001" = p := by simpa using hp
        subst hpe
        rfl),
   by rfl⟩

/- ## Claim C1 -/

/-- Per-commit classification rule exactly as the claim states it: a record
found under the current identity with a differing anchor yields an
incremental-update action, a record with matching anchor yields nothing,
and no record yields a new-commit action whose branch name the Identifier
Deriver computes from the username and the commit message. -/
def claimAction (repo : Repo) (username : String) (oid : CommitId) :
    Option CommitUpdateType :=
  match get_commit_metadata repo.notes oid with
  | .ok (some record) =>
    if record.original_commit_id ≠ oid then
      some (.IncrementalUpdate oid oid record)
    else none
  | .ok none =>
    match repo.find_commit oid with
    | some c =>
      some (.NewCommit
        { id := oid, message := c.message,
          potential_branch_name := generate_branch_name_str username c.message })
    | none => none
  | .error _ => none

/-- The commits visited by one walk: at most 1 (single mode) or 10 (full
mode) along the first-parent chain, newest first. -/
def visitedCommits (repo : Repo) (head_cid : CommitId) (latest_only : Bool) :
    List CommitId :=
  (firstParentChain repo (repo.commits.length + 1) head_cid).take
    (if latest_only then 1 else 10)

theorem classifyList_ok_eq (repo : Repo) (username : String) :
    ∀ (l : List CommitId) (acts : List CommitUpdateType),
      classifyList repo username l = .ok acts →
      acts = l.filterMap (claimAction repo username) := by
  intro l
  induction l with
  | nil =>
    intro acts h
    unfold classifyList at h
    cases h
    rfl
  | cons oid rest ih =>
    intro acts h
    unfold classifyList at h
    cases hfind : repo.find_commit oid with
    | none =>
      rw [hfind] at h
      have h2 : (Except.error "commit not found" :
          Except String (List CommitUpdateType)) = .ok acts := h
      simp at h2
    | some commit =>
      rw [hfind] at h
      cases hmeta : get_commit_metadata repo.notes oid with
      | error e =>
        rw [hmeta] at h
        have h2 : (Except.error e :
            Except String (List CommitUpdateType)) = .ok acts := h
        simp at h2
      | ok mdOpt =>
        rw [hmeta] at h
        cases hrest : classifyList repo username rest with
        | error e =>
          rw [hrest] at h
          cases mdOpt with
          | some record =>
            have h2 : (Except.error e :
                Except String (List CommitUpdateType)) = .ok acts := h
            simp at h2
          | none =>
            have h2 : (Except.error e :
                Except String (List CommitUpdateType)) = .ok acts := h
            simp at h2
        | ok restActs =>
          rw [hrest] at h
          have hr := ih restActs hrest
          cases mdOpt with
          | some record =>
            have h2 : (if record.is_commit_changed oid then
                Except.ok (CommitUpdateType.IncrementalUpdate oid oid record
                  :: restActs)
              else (Except.ok restActs :
                Except String (List CommitUpdateType))) = .ok acts := h
            by_cases hch : record.original_commit_id = oid
            · have hcf : record.is_commit_changed oid = false := by
                simp [CommitMetadata.is_commit_changed, hch]
              rw [hcf] at h2
              simp only [Bool.false_eq_true, if_false] at h2
              cases h2
              simp [List.filterMap_cons, claimAction, hmeta, hch, hr]
            · have hct : record.is_commit_changed oid = true := by
                simp [CommitMetadata.is_commit_changed, hch]
              rw [hct] at h2
              simp only [if_true] at h2
              cases h2
              simp [List.filterMap_cons, claimAction, hmeta, hch, hr]
          | none =>
            have h2 : Except.ok (CommitUpdateType.NewCommit
                { id := oid, message := commit.message,
                  potential_branch_name :=
                    generate_branch_name_str username commit.message }
                :: restActs) = (Except.ok acts :
                  Except String (List CommitUpdateType)) := h
            cases h2
            simp [List.filterMap_cons, claimAction, hmeta, hfind, hr]

/-- C1: whenever the classifier walk succeeds, its action sequence is
exactly the claim's per-commit rule mapped over the visited window — the
first (at most 1 in single mode, 10 in full mode) commits of the
newest-to-oldest walk — preserving walk order; in particular it emits at
most windowSize actions. -/
theorem claim_c1_classifier_actions (repo : Repo) (latest_only : Bool)
    (head_cid : CommitId) (acts : List CommitUpdateType)
    (hhead : resolveMainHead repo = some head_cid)
    (hok : get_commits_needing_processing_impl repo latest_only = .ok acts) :
    acts = (visitedCommits repo head_cid latest_only).filterMap
        (claimAction repo (repo.userName.getD "unknown"))
    ∧ acts.length ≤ (if latest_only then 1 else 10) := by
  unfold get_commits_needing_processing_impl at hok
  rw [hhead] at hok
  have h1 := classifyList_ok_eq repo (repo.userName.getD "unknown") _ _ hok
  refine ⟨h1, ?_⟩
  rw [h1]
  calc ((visitedCommits repo head_cid latest_only).filterMap
          (claimAction repo (repo.userName.getD "unknown"))).length
      ≤ (visitedCommits repo head_cid latest_only).length :=
        List.length_filterMap_le _ _
    _ ≤ (if latest_only then 1 else 10) := by
        unfold visitedCommits
        exact List.length_take_le _ _

/-- A record anchored at a stale identity: stored for dddd0002 but created
against dddd0000, so the walk flags an incremental update. -/
def c1Meta2 : CommitMetadata :=
  CommitMetadata.new_branch_created "gitx/alice/fix-bug" "dddd0000"
    "2024-01-01T00:00:00Z"

/-- A record anchored at its own identity: fully tracked and current. -/
def c1Meta1 : CommitMetadata :=
  CommitMetadata.new_branch_created "gitx/alice/initial" "dddd0001"
    "2024-01-01T00:00:00Z"

def c1Repo : Repo :=
  { commits :=
      [{ cid := "dddd0003", message := "Add feature", parents := ["dddd0002"] },
       { cid := "dddd0002", message := "Fix bug", parents := ["dddd0001"] },
       { cid := "dddd0001", message := "Initial", parents := [] }],
    branches := [("main", "dddd0003")],
    notes := [("dddd0002", some (encodeCommitMetadata c1Meta2)),
              ("dddd0001", some (encodeCommitMetadata c1Meta1))],
    userName := some "alice" }

def c1Expected : List CommitUpdateType :=
  [.NewCommit { id := "dddd0003", message := "Add feature",
                potential_branch_name := "gitx/alice/add-feature" },
   .IncrementalUpdate "dddd0002" "dddd0002" c1Meta2]

theorem claim_c1_witness :
    get_commits_needing_processing_impl c1Repo false = .ok c1Expected
    ∧ c1Expected = (visitedCommits c1Repo "dddd0003" false).filterMap
        (claimAction c1Repo (c1Repo.userName.getD "unknown"))
    ∧ c1Expected.length ≤ 10 :=
  have h := claim_c1_classifier_actions c1Repo false "dddd0003" c1Expected
    rfl (by rfl)
  ⟨by rfl, h.1, h.2⟩

/- ## Claim C8 -/

def c8Repo : Repo :=
  { commits := [{ cid := "eeee0001", message := "Add feature", parents := [] }],
    branches := [("main", "eeee0001")],
    notes := [],
    userName := some "alice" }

/-- C8 counterexample: the classifier performs no writes, so running it a
second time over the same state returns the same sequence; over a window
containing one untracked commit both runs return one new-commit action,
so the second run is not empty as the claim demands. -/
theorem claim_c8_counterexample :
    get_commits_needing_processing_impl c8Repo false =
      .ok [.NewCommit { id := "eeee0001", message := "Add feature",
                        potential_branch_name := "gitx/alice/add-feature" }]
    ∧ get_commits_needing_processing_impl c8Repo false ≠ .ok [] := by
  refine ⟨rfl, fun h => ?_⟩
  have h2 : (Except.ok [CommitUpdateType.NewCommit
      { id := "eeee0001", message := "Add feature",
        potential_branch_name := "gitx/alice/add-feature" }] :
      Except String (List CommitUpdateType)) = .ok [] := h
  simp at h2

/-- A commit whose Tracking Record exists, decodes, and is anchored at the
commit's current identity — fully tracked and current. -/
def fullyTracked (repo : Repo) (oid : CommitId) : Bool :=
  match get_commit_metadata repo.notes oid with
  | .ok (some record) => record.original_commit_id == oid
  | _ => false

theorem classifyList_tracked (repo : Repo) (username : String) :
    ∀ l : List CommitId,
      (∀ oid ∈ l, fullyTracked repo oid = true) →
      (∀ oid ∈ l, (repo.find_commit oid).isSome) →
      classifyList repo username l = .ok [] := by
  intro l
  induction l with
  | nil => intro _ _; rfl
  | cons oid rest ih =>
    intro htr hfd
    have h1 := htr oid (by simp)
    have h2 := hfd oid (by simp)
    obtain ⟨c, hc⟩ := Option.isSome_iff_exists.1 h2
    unfold classifyList
    rw [hc]
    unfold fullyTracked at h1
    cases hm : get_commit_metadata repo.notes oid with
    | error e => rw [hm] at h1; cases h1
    | ok mo =>
      rw [hm] at h1
      cases mo with
      | none => cases h1
      | some record =>
        have hanchor : record.original_commit_id = oid := by
          simpa using h1
        rw [ih (fun o ho => htr o (by simp [ho]))
            (fun o ho => hfd o (by simp [ho]))]
        have hcf : record.is_commit_changed oid = false := by
          simp [CommitMetadata.is_commit_changed, hanchor]
        show (if record.is_commit_changed oid then
            Except.ok (CommitUpdateType.IncrementalUpdate oid oid record :: [])
          else (Except.ok [] : Except String (List CommitUpdateType))) =
          Except.ok []
        rw [hcf]
        simp

/-- C8 amended: classification is read-only, so with no intervening writes
a second run returns exactly the first run's sequence; that sequence is
empty precisely in the fully-tracked case — when every visited commit has
a record anchored at its current identity, every run over the window
returns the empty action sequence. -/
theorem claim_c8_fully_tracked_empty (repo : Repo) (latest_only : Bool)
    (head_cid : CommitId)
    (hhead : resolveMainHead repo = some head_cid)
    (htracked : ∀ oid ∈ visitedCommits repo head_cid latest_only,
      fullyTracked repo oid = true)
    (hfound : ∀ oid ∈ visitedCommits repo head_cid latest_only,
      (repo.find_commit oid).isSome) :
    get_commits_needing_processing_impl repo latest_only = .ok [] := by
  unfold get_commits_needing_processing_impl
  rw [hhead]
  exact classifyList_tracked repo _ _ htracked hfound

def c8TrackedRepo : Repo :=
  { commits := [{ cid := "ffff0001", message := "Initial", parents := [] }],
    branches := [("main", "ffff0001")],
    notes := [("ffff0001", some (encodeCommitMetadata
      (CommitMetadata.new_branch_created "gitx/alice/initial" "ffff0001"
        "2024-01-01T00:00:00Z")))],
    userName := some "alice" }

theorem claim_c8_witness :
    resolveMainHead c8TrackedRepo = some "ffff0001"
    ∧ (∀ oid ∈ visitedCommits c8TrackedRepo "ffff0001" false,
        fullyTracked c8TrackedRepo oid = true)
    ∧ get_commits_needing_processing_impl c8TrackedRepo false = .ok [] :=
  ⟨rfl, by decide,
   claim_c8_fully_tracked_empty c8TrackedRepo false "ffff0001" rfl
     (by decide) (by decide)⟩

/- ## Claim C5 -/

theorem get_after_update (notes : NotesStore) (cid : CommitId)
    (m : CommitMetadata) :
    get_commit_metadata (update_commit_metadata notes cid m) cid =
      .ok (some m) := by
  unfold get_commit_metadata update_commit_metadata
  simp [List.lookup, decode_encode_metadata]

/-- C5 amended: whenever an incremental update is applied, the entry
appended to the record's incremental list always carries kind Amended
(`AmendedCommit`): the source passes that kind unconditionally and the
Classifier supplies no distinguishing signal, so `AdditionalCommit` is
never recorded by this operation. -/
theorem claim_c5_always_amended (repo : Repo)
    (original_commit_oid updated_commit_oid : CommitId)
    (pr_metadata : CommitMetadata) (new_oid : CommitId) (now : Timestamp)
    (repo2 : Repo) (updated_metadata : CommitMetadata) (uc : CommitData)
    (hfind : repo.find_commit updated_commit_oid = some uc)
    (hok : create_incremental_commit repo original_commit_oid
      updated_commit_oid pr_metadata new_oid now = .ok (repo2, updated_metadata)) :
    updated_metadata.incremental_commits =
      pr_metadata.incremental_commits ++
        [{ commit_id := updated_commit_oid, message := uc.message,
           commit_type := .AmendedCommit, created_at := now }]
    ∧ get_commit_metadata repo2.notes original_commit_oid =
        .ok (some updated_metadata) := by
  unfold create_incremental_commit at hok
  cases hbr : repo.branches.lookup pr_metadata.pr_branch_name with
  | none =>
    rw [hbr] at hok
    have h2 : (Except.error "branch not found" :
        Except String (Repo × CommitMetadata)) = .ok (repo2, updated_metadata) := hok
    simp at h2
  | some pr_branch_tip =>
    rw [hbr, hfind] at hok
    have h2 : Except.ok
        ((⟨(⟨new_oid, incremental_message uc.message original_commit_oid,
              [pr_branch_tip]⟩ : CommitData) :: repo.commits,
           (pr_metadata.pr_branch_name, new_oid) ::
             repo.branches.filter (fun p => p.1 != pr_metadata.pr_branch_name),
           update_commit_metadata repo.notes original_commit_oid
             (pr_metadata.add_incremental_commit updated_commit_oid uc.message
               .AmendedCommit now),
           repo.userName⟩ : Repo),
          pr_metadata.add_incremental_commit updated_commit_oid uc.message
            .AmendedCommit now)
        = .ok (repo2, updated_metadata) := hok
    have h3 := Except.ok.inj h2
    injection h3 with h4 h5
    subst h4 h5
    refine ⟨rfl, ?_⟩
    exact get_after_update repo.notes original_commit_oid _

/-- A tracked stack: the record anchors at abcd0001, and abcd0002 is a
wholly new commit appended on top of it (its parent is the anchor). -/
def c5Meta : CommitMetadata :=
  (CommitMetadata.new_branch_created "gitx/alice/add-login" "abcd0001"
    "2024-01-01T00:00:00Z").with_pr_number 1 "2024-01-01T00:05:00Z"

def c5Repo : Repo :=
  { commits :=
      [{ cid := "abcd0002", message := "Add login tests", parents := ["abcd0001"] },
       { cid := "abcd0001", message := "Add login", parents := [] }],
    branches := [("main", "abcd0002"), ("gitx/alice/add-login", "abcd0001")],
    notes := [("abcd0001", some (encodeCommitMetadata c5Meta))],
    userName := some "alice" }

/-- C5 counterexample: the updated commit abcd0002 is a wholly new commit
appended after the record's anchor abcd0001 (a child of the anchor, not an
amendment of it), yet the entry recorded by the incremental update carries
kind AmendedCommit — not AdditionalCommit as the claim requires for this
case — because the source hardcodes AmendedCommit at both call sites and
the Classifier's output carries no kind signal at all. -/
theorem claim_c5_counterexample :
    ("abcd0002" : CommitId) ≠ c5Meta.original_commit_id
    ∧ (create_incremental_commit c5Repo "abcd0001" "abcd0002" c5Meta
        "abcd0003" "2024-01-02T00:00:00Z").map
          (fun r => r.2.incremental_commits.map (fun ic => ic.commit_type))
      = .ok [.AmendedCommit]
    ∧ IncrementalCommitType.AmendedCommit ≠ .AdditionalCommit :=
  ⟨by decide, rfl, by decide⟩

def c5Run : Except String (Repo × CommitMetadata) :=
  create_incremental_commit c5Repo "abcd0001" "abcd0002" c5Meta "abcd0003"
    "2024-01-02T00:00:00Z"

def c5Repo2 : Repo :=
  match c5Run with
  | .ok r => r.1
  | .error _ => c5Repo

def c5UpdatedMeta : CommitMetadata :=
  c5Meta.add_incremental_commit "abcd0002" "Add login tests" .AmendedCommit
    "2024-01-02T00:00:00Z"

theorem claim_c5_witness :
    create_incremental_commit c5Repo "abcd0001" "abcd0002" c5Meta "abcd0003"
        "2024-01-02T00:00:00Z" = .ok (c5Repo2, c5UpdatedMeta)
    ∧ (c5UpdatedMeta.incremental_commits =
        c5Meta.incremental_commits ++
          [{ commit_id := "abcd0002", message := "Add login tests",
             commit_type := .AmendedCommit,
             created_at := "2024-01-02T00:00:00Z" }]
       ∧ get_commit_metadata c5Repo2.notes "abcd0001" =
           .ok (some c5UpdatedMeta)) :=
  ⟨rfl,
   claim_c5_always_amended c5Repo "abcd0001" "abcd0002" c5Meta "abcd0003"
     "2024-01-02T00:00:00Z" c5Repo2 c5UpdatedMeta
     { cid := "abcd0002", message := "Add login tests", parents := ["abcd0001"] }
     rfl rfl⟩

/- ## Claim C2 -/

theorem lookup_filter_self (l : List (String × CommitId)) (k : String) :
    (l.filter (fun p => p.1 != k)).lookup k = none := by
  induction l with
  | nil => rfl
  | cons p rest ih =>
    by_cases h : p.1 = k
    · simp [List.filter_cons, h, ih]
    · have hkp : (k == p.1) = false := beq_eq_false_iff_ne.2 (fun he => h he.symm)
      simp [List.filter_cons, h, List.lookup, hkp, ih]

/-- Tupled run of the transient-branch protocol, for stating its
contract: final world, effect trace, result. -/
def transientRun (w : World) (commit_info : CommitInfo)
    (client : GitHubClientModel) (now1 now2 : Timestamp) :
    World × List PREvent × Except String PRInfo :=
  create_transient_pr_branch_with_github_client w commit_info client now1 now2

/-- C2: the transient-branch protocol performs its effects in order —
create local branch, push, persist the Tracking Record (BranchCreated)
strictly before the create-PR call, update the record with the returned
PR number (status PRCreated), delete the local branch; on success the
final record carries the PR number and the branch is gone locally, and on
any failure the remaining steps are skipped without rolling back the
completed ones (a stored record stays stored, a created branch stays
present). -/
theorem claim_c2_transient_protocol (w : World) (commit_info : CommitInfo)
    (client : GitHubClientModel) (now1 now2 : Timestamp) :
    (∀ pr, (transientRun w commit_info client now1 now2).2.2 = .ok pr →
      ((transientRun w commit_info client now1 now2).2.1.map PREvent.kind =
          [.create, .push, .store, .callPR, .updateRec, .deleteBranch]
        ∧ get_commit_metadata
            (transientRun w commit_info client now1 now2).1.repo.notes
            commit_info.id =
            .ok (some ((CommitMetadata.new_branch_created
              commit_info.potential_branch_name commit_info.id
                now1).with_pr_number pr.number now2))
        ∧ ((CommitMetadata.new_branch_created commit_info.potential_branch_name
            commit_info.id now1).with_pr_number pr.number now2).github_pr_number
            = some pr.number
        ∧ ((CommitMetadata.new_branch_created commit_info.potential_branch_name
            commit_info.id now1).with_pr_number pr.number now2).status
            = .PRCreated
        ∧ lookupBranch (transientRun w commit_info client now1 now2).1.repo
            commit_info.potential_branch_name = none))
    ∧ (∀ e, (transientRun w commit_info client now1 now2).2.2 = .error e →
      (PREventKind.updateRec ∉
          (transientRun w commit_info client now1 now2).2.1.map PREvent.kind
        ∧ PREventKind.deleteBranch ∉
          (transientRun w commit_info client now1 now2).2.1.map PREvent.kind
        ∧ (PREventKind.store ∈
            (transientRun w commit_info client now1 now2).2.1.map PREvent.kind →
          (transientRun w commit_info client now1 now2).1.repo.notes.lookup
              commit_info.id =
            some (some (encodeCommitMetadata (CommitMetadata.new_branch_created
              commit_info.potential_branch_name commit_info.id now1))))
        ∧ (PREventKind.create ∈
            (transientRun w commit_info client now1 now2).2.1.map PREvent.kind →
          lookupBranch (transientRun w commit_info client now1 now2).1.repo
              commit_info.potential_branch_name = some commit_info.id))) := by
  unfold transientRun create_transient_pr_branch_with_github_client
  dsimp only
  split
  · -- find_commit failed: nothing happened
    constructor
    · intro pr hpr
      exact absurd hpr (by simp)
    · intro e _
      exact ⟨by simp, by simp, by intro hm; simp at hm, by intro hm; simp at hm⟩
  · -- commit found
    split
    · -- branch already exists: nothing happened
      constructor
      · intro pr hpr
        exact absurd hpr (by simp)
      · intro e _
        exact ⟨by simp, by simp, by intro hm; simp at hm, by intro hm; simp at hm⟩
    · -- branch created
      split
      · -- push failed: branch stays, no record yet
        constructor
        · intro pr hpr
          exact absurd hpr (by simp)
        · intro e _
          refine ⟨by simp [PREvent.kind], by simp [PREvent.kind],
            ?_, ?_⟩
          · intro hm
            simp [PREvent.kind] at hm
          · intro _
            simp [lookupBranch, List.lookup]
      · -- pushed
        split
        · -- store_commit_metadata failed (note already exists)
          constructor
          · intro pr hpr
            exact absurd hpr (by simp)
          · intro e _
            refine ⟨by simp [PREvent.kind], by simp [PREvent.kind], ?_, ?_⟩
            · intro hm
              simp [PREvent.kind] at hm
            · intro _
              simp [lookupBranch, List.lookup]
        · -- record stored
          rename_i notes2 hstore
          have hnotes2 : notes2 =
              (commit_info.id, some (encodeCommitMetadata
                (CommitMetadata.new_branch_created
                  commit_info.potential_branch_name commit_info.id now1)))
              :: w.repo.notes := by
            unfold store_commit_metadata at hstore
            split at hstore
            · exact absurd hstore (by simp)
            · exact (Except.ok.inj hstore).symm
          split
          · -- base-branch resolution failed after the store
            constructor
            · intro pr hpr
              exact absurd hpr (by simp)
            · intro e _
              refine ⟨by simp [PREvent.kind], by simp [PREvent.kind], ?_, ?_⟩
              · intro _
                simp [hnotes2, List.lookup]
              · intro _
                simp [lookupBranch, List.lookup]
          · -- base resolved
            split
            · -- gateway create-PR call failed: record stays, branch stays
              constructor
              · intro pr hpr
                exact absurd hpr (by simp)
              · intro e _
                refine ⟨by simp [PREvent.kind], by simp [PREvent.kind], ?_, ?_⟩
                · intro _
                  simp [hnotes2, List.lookup]
                · intro _
                  simp [lookupBranch, List.lookup]
            · -- PR created: record updated, branch deleted
              rename_i pr_info hcreate
              constructor
              · intro pr hpr
                have hpr2 : pr_info = pr := Except.ok.inj hpr
                subst hpr2
                refine ⟨by simp [PREvent.kind], ?_, rfl, rfl, ?_⟩
                · rw [hnotes2]
                  exact get_after_update _ commit_info.id _
                · exact lookup_filter_self _ _
              · intro e he
                exact absurd he (by simp)

def c2Repo : Repo :=
  { commits := [{ cid := "abab0001", message := "Add login flow", parents := [] }],
    branches := [("main", "abab0001")],
    notes := [],
    userName := some "alice" }

def c2World : World := { repo := c2Repo, pushFailures := [] }

/-- A substitute gateway returning PR number 1, as in the spec's
end-to-end scenario. -/
def c2Client : GitHubClientModel :=
  { create_pr := fun _ _ _ _ =>
      .ok ⟨1, "https://example.test/pull/1", "Add login flow"⟩,
    update_pr := fun _ _ _ => .ok () }

def c2Info : CommitInfo :=
  { id := "abab0001", message := "Add login flow",
    potential_branch_name := "gitx/alice/add-login-flow" }

theorem claim_c2_witness :
    (transientRun c2World c2Info c2Client "t1" "t2").2.2 =
      .ok { number := 1, url := "https://example.test/pull/1",
            title := "Add login flow" }
    ∧ ((transientRun c2World c2Info c2Client "t1" "t2").2.1.map PREvent.kind =
        [.create, .push, .store, .callPR, .updateRec, .deleteBranch]
      ∧ get_commit_metadata
          (transientRun c2World c2Info c2Client "t1" "t2").1.repo.notes
          "abab0001" =
          .ok (some ((CommitMetadata.new_branch_created
            "gitx/alice/add-login-flow" "abab0001" "t1").with_pr_number 1 "t2"))
      ∧ ((CommitMetadata.new_branch_created "gitx/alice/add-login-flow"
          "abab0001" "t1").with_pr_number 1 "t2").github_pr_number = some 1
      ∧ ((CommitMetadata.new_branch_created "gitx/alice/add-login-flow"
          "abab0001" "t1").with_pr_number 1 "t2").status = .PRCreated
      ∧ lookupBranch (transientRun c2World c2Info c2Client "t1" "t2").1.repo
          "gitx/alice/add-login-flow" = none) :=
  ⟨by rfl, (claim_c2_transient_protocol c2World c2Info c2Client "t1" "t2").1
    { number := 1, url := "https://example.test/pull/1",
      title := "Add login flow" } (by rfl)⟩

end Gitx
